import Mathlib

/-!
Verification of the expense-report OCR batch app (src/app.py).

The file shallowly embeds the app's pure core: the regular-expression
field extraction (`_extract_fields`, `_clean_name_english`), the
per-document batch loop, the suffix dispatch of `_read_text_from_bytes`,
and the floating-point resize arithmetic of `_ocr_image`.

Python's `re.search` calls are embedded by a small backtracking matcher
over a regex syntax tree (`Re`).  The matcher follows Python semantics
for the constructs the six patterns of app.py use: leftmost search
position wins; greedy quantifiers try the longest repetition first and
lazy quantifiers the shortest; all quantified subexpressions in app.py
are single-character classes, so repetition is bounded by the maximal
run of the class; `.` matches anything but a newline; `\b` is a word
boundary; case-insensitive literals compare lowercased characters.
-/

namespace ReinPics

/-- Python `\s` (the inputs in scope hold only ASCII whitespace). -/
def isPySpace (c : Char) : Bool :=
  c = ' ' || c = '\t' || c = '\n' || c = '\r' || c = '\x0b' || c = '\x0c'

/-- The character class `[:\s]` of app.py's label separators. -/
def isColonSpace (c : Char) : Bool := c = ':' || isPySpace c

/-- The character class `[A-Za-z0-9]`. -/
def isAsciiAlnum (c : Char) : Bool := c.isAlpha || c.isDigit

/-- The character class `[0-9,]` of the amount token. -/
def isDigitComma (c : Char) : Bool := c.isDigit || c = ','

/-- Python `.` without `re.DOTALL`: any character except a newline. -/
def isDotCh (c : Char) : Bool := !(c = '\n')

/-- Python `\w` restricted to the scripts the documents use: ASCII
letters, digits, underscore, and CJK unified ideographs (all Unicode
word characters that occur in the texts in scope). -/
def isWordChar (c : Char) : Bool :=
  c.isAlpha || c.isDigit || c = '_' || (0x4E00 ≤ c.toNat && c.toNat ≤ 0x9FFF)

/-- Is the character at position `i` (if any) a word character? -/
def wordAt (s : List Char) (i : Nat) : Bool :=
  match s[i]? with
  | some c => isWordChar c
  | none => false

/-- Python `\b`: positions where word-ness changes (ends count as non-word). -/
def isWB (s : List Char) (i : Nat) : Bool :=
  (match i with
   | 0 => false
   | j + 1 => wordAt s j) != wordAt s i

/-- Character comparison, optionally case-insensitive (`re.IGNORECASE`). -/
def chEq (ci : Bool) (a b : Char) : Bool :=
  if ci then a.toLower = b.toLower else a = b

/-- Regex syntax tree covering the constructs of app.py's six patterns.
Quantifiers are restricted to one-character classes, which is all the
source patterns quantify. -/
inductive Re where
  | lit (ci : Bool) (w : List Char)
  | cls (p : Char → Bool)
  | cat (r1 r2 : Re)
  | alt (r1 r2 : Re)
  | opt (r : Re)
  | plusG (p : Char → Bool)
  | starG (p : Char → Bool)
  | plusL (p : Char → Bool)
  | starL (p : Char → Bool)
  | grp (r : Re)
  | wb

/-- The span of capturing group 1, when set. -/
abbrev Caps := Option (Nat × Nat)

/-- A match outcome: end position of the whole match plus group 1's span. -/
abbrev MRes := Nat × Caps

/-- Match a literal word at position `i`; returns the end position. -/
def matchLit (ci : Bool) (s : List Char) : Nat → List Char → Option Nat
  | i, [] => some i
  | i, c :: cs =>
    match s[i]? with
    | some d => if chEq ci d c then matchLit ci s (i + 1) cs else none
    | none => none

/-- Length of the maximal prefix of `l` satisfying `p`. -/
def runLenAux (p : Char → Bool) : List Char → Nat
  | [] => 0
  | c :: cs => if p c then runLenAux p cs + 1 else 0

/-- Length of the maximal run of `p`-characters starting at position `i`. -/
def runLen (p : Char → Bool) (s : List Char) (i : Nat) : Nat :=
  runLenAux p (s.drop i)

/-- Greedy backtracking over a repetition: try end positions
`base + d`, `base + d - 1`, …, `base`, first success wins. -/
def tryDescAux (f : Nat → Option MRes) (base : Nat) : Nat → Option MRes
  | 0 => f base
  | d + 1 => (f (base + d + 1)).orElse (fun _ => tryDescAux f base d)

/-- Lazy backtracking over a repetition: try end positions
`base`, `base + 1`, …, `base + d`, first success wins. -/
def tryAscAux (f : Nat → Option MRes) (base : Nat) : Nat → Option MRes
  | 0 => f base
  | d + 1 => (f base).orElse (fun _ => tryAscAux f (base + 1) d)

/-- The backtracking matcher, in continuation-passing style: match `r`
at position `i` of `s` with group state `caps`, calling `k` at each
candidate end position in Python's preference order. -/
def mat (s : List Char) : Re → Nat → Caps → (Nat → Caps → Option MRes) → Option MRes
  | Re.lit ci w, i, caps, k =>
    (match matchLit ci s i w with
     | some j => k j caps
     | none => none)
  | Re.cls p, i, caps, k =>
    (match s[i]? with
     | some c => if p c then k (i + 1) caps else none
     | none => none)
  | Re.cat r1 r2, i, caps, k => mat s r1 i caps (fun j cs => mat s r2 j cs k)
  | Re.alt r1 r2, i, caps, k =>
    (mat s r1 i caps k).orElse (fun _ => mat s r2 i caps k)
  | Re.opt r, i, caps, k => (mat s r i caps k).orElse (fun _ => k i caps)
  | Re.plusG p, i, caps, k =>
    (match runLen p s i with
     | 0 => none
     | m + 1 => tryDescAux (fun j => k j caps) (i + 1) m)
  | Re.starG p, i, caps, k => tryDescAux (fun j => k j caps) i (runLen p s i)
  | Re.plusL p, i, caps, k =>
    (match runLen p s i with
     | 0 => none
     | m + 1 => tryAscAux (fun j => k j caps) (i + 1) m)
  | Re.starL p, i, caps, k => tryAscAux (fun j => k j caps) i (runLen p s i)
  | Re.grp r, i, caps, k => mat s r i caps (fun j _ => k j (some (i, j)))
  | Re.wb, i, caps, k => if isWB s i then k i caps else none

/-- Attempt a match anchored at position `i`. -/
def attemptAt (r : Re) (s : List Char) (i : Nat) : Option MRes :=
  mat s r i none (fun j c => some (j, c))

/-- `re.search` scanning: try `i`, `i+1`, …, `i+cnt`; produce
(match start, match end, group-1 span) of the leftmost match. -/
def searchCnt (r : Re) (s : List Char) (i : Nat) : Nat → Option (Nat × Nat × Caps)
  | 0 =>
    (match attemptAt r s i with
     | some (j, c) => some (i, j, c)
     | none => none)
  | cnt + 1 =>
    (match attemptAt r s i with
     | some (j, c) => some (i, j, c)
     | none => searchCnt r s (i + 1) cnt)

/-- Python `re.search`: scan start positions `0 … s.length`. -/
def searchA (r : Re) (s : List Char) : Option (Nat × Nat × Caps) :=
  searchCnt r s 0 s.length

/-- The characters of `s` from position `a` (inclusive) to `b` (exclusive). -/
def slice (s : List Char) (a b : Nat) : List Char :=
  (s.drop a).take (b - a)

/-- `m.group(1)` of a successful search.  Group 1 sits in a mandatory
position in every capturing pattern of app.py, so it always participates
in a match; the unreachable no-participation case yields `[]`. -/
def group1 (s : List Char) : Nat × Nat × Caps → List Char
  | (_, _, some (a, b)) => slice s a b
  | (_, _, none) => []

/-- Concatenation of a pattern sequence (right-nested, `epsRe`-terminated). -/
def epsRe : Re := Re.lit false []

/-- Fold a pattern list into nested concatenation. -/
def reCat (l : List Re) : Re := l.foldr Re.cat epsRe

/-- `(?:Expense Report(?: Number)?[:\s]+)(SHPC-[A-Za-z0-9]+)` with
`re.IGNORECASE` (app.py line 74). -/
def re_report_primary : Re :=
  reCat [Re.lit true "Expense Report".toList,
         Re.opt (Re.lit true " Number".toList),
         Re.plusG isColonSpace,
         Re.grp (Re.cat (Re.lit true "SHPC-".toList) (Re.plusG isAsciiAlnum))]

/-- `\b(SHPC-[A-Za-z0-9]+)\b` with no flags, hence case-sensitive
(app.py line 76). -/
def re_report_fallback : Re :=
  reCat [Re.wb,
         Re.grp (Re.cat (Re.lit false "SHPC-".toList) (Re.plusG isAsciiAlnum)),
         Re.wb]

/-- `Expense Report[:\s]+SHPC-[A-Za-z0-9]+,\s*(.+?)\s*,?\s*on\b` with
`re.IGNORECASE` (app.py line 80). -/
def re_name_primary : Re :=
  reCat [Re.lit true "Expense Report".toList,
         Re.plusG isColonSpace,
         Re.lit true "SHPC-".toList,
         Re.plusG isAsciiAlnum,
         Re.lit false [','],
         Re.starG isPySpace,
         Re.grp (Re.plusL isDotCh),
         Re.starG isPySpace,
         Re.opt (Re.lit false [',']),
         Re.starG isPySpace,
         Re.lit true "on".toList,
         Re.wb]

/-- `(?:Report Owner|QC Name?)[:\s]+(.+)` with `re.IGNORECASE`
(app.py line 84).  `QC Name?` is `QC Nam` plus an optional `e`. -/
def re_name_fallback : Re :=
  reCat [Re.alt (Re.lit true "Report Owner".toList)
                (Re.cat (Re.lit true "QC Nam".toList) (Re.opt (Re.lit true "e".toList))),
         Re.plusG isColonSpace,
         Re.grp (Re.plusG isDotCh)]

/-- The monetary token `[0-9,]+\.[0-9]{2}` (inside group 1 of both
amount patterns). -/
def amtTok : Re :=
  Re.cat (Re.plusG isDigitComma)
    (Re.cat (Re.lit false ['.'])
      (Re.cat (Re.cls Char.isDigit) (Re.cls Char.isDigit)))

/-- `for\s*￥?\s*([0-9,]+\.[0-9]{2})` with `re.IGNORECASE` (app.py line 89). -/
def re_amount_primary : Re :=
  reCat [Re.lit true "for".toList,
         Re.starG isPySpace,
         Re.opt (Re.lit false ['￥']),
         Re.starG isPySpace,
         Re.grp amtTok]

/-- `(?:Reimbursement|Total Amount)[:\s]+(?:CNY|￥)?\s*([0-9,]+\.[0-9]{2})`
with `re.IGNORECASE` (app.py line 92). -/
def re_amount_fallback : Re :=
  reCat [Re.alt (Re.lit true "Reimbursement".toList) (Re.lit true "Total Amount".toList),
         Re.plusG isColonSpace,
         Re.opt (Re.alt (Re.lit true "CNY".toList) (Re.lit false ['￥'])),
         Re.starG isPySpace,
         Re.grp amtTok]

/-- `（.*?）`: a full-width parenthesised annotation (app.py line 38). -/
def re_fullwidth_paren : Re :=
  reCat [Re.lit false ['（'], Re.starL isDotCh, Re.lit false ['）']]

/-- `re.sub(pattern, "", s)`: remove every (leftmost, non-overlapping)
match.  The one pattern used, `（.*?）`, never matches fewer than two
characters, so each removal shortens the text and `fuel = s.length`
always suffices. -/
def subAllAux (r : Re) : Nat → List Char → List Char
  | 0, s => s
  | fuel + 1, s =>
    (match searchA r s with
     | some (a, b, _) =>
       if a < b then s.take a ++ subAllAux r fuel (s.drop b) else s
     | none => s)

/-- Remove every match of `r` from `s`. -/
def subAll (r : Re) (s : List Char) : List Char := subAllAux r s.length s

/-- `re.findall(r"[A-Za-z]+", s)`: the maximal runs of ASCII letters. -/
def alphaRunsAux : List Char → List Char → List (List Char)
  | [], acc => if acc = [] then [] else [acc.reverse]
  | c :: cs, acc =>
    if c.isAlpha then alphaRunsAux cs (c :: acc)
    else if acc = [] then alphaRunsAux cs []
    else acc.reverse :: alphaRunsAux cs []

/-- The alphabetic word tokens of `s`, in order. -/
def alphaRuns (s : List Char) : List (List Char) := alphaRunsAux s []

/-- `" ".join(words)`. -/
def joinWords : List (List Char) → List Char
  | [] => []
  | [w] => w
  | w :: ws => w ++ ' ' :: joinWords ws

/-- Python `str.strip()` over the whitespace the values in scope hold. -/
def pyStrip (s : List Char) : List Char :=
  ((s.dropWhile isPySpace).reverse.dropWhile isPySpace).reverse

/-- `_clean_name_english` (app.py lines 36-40): drop full-width
parenthesised annotations, keep only ASCII-letter words, keep at most
the first two, join with one space, strip. -/
def _clean_name_english (name : String) : String :=
  String.mk (pyStrip (joinWords ((alphaRuns (subAll re_fullwidth_paren name.toList)).take 2)))

/-- Line 74-77 of app.py: report number, primary then fallback search. -/
def report_no_of (s : List Char) : String :=
  match (match searchA re_report_primary s with
         | some m => some m
         | none => searchA re_report_fallback s) with
  | some m => String.mk (group1 s m)
  | none => ""

/-- Lines 80-81 of app.py: the cleaned capture of the primary name
pattern, or `""` when the primary does not match. -/
def qc_primary_cleaned (s : List Char) : String :=
  match searchA re_name_primary s with
  | some m => _clean_name_english (String.mk (group1 s m))
  | none => ""

/-- Lines 84-86 of app.py: the cleaned capture of the name fallback
pattern, or `""` when it does not match. -/
def qc_fallback_value (s : List Char) : String :=
  match searchA re_name_fallback s with
  | some m => _clean_name_english (String.mk (group1 s m))
  | none => ""

/-- Lines 80-86 of app.py: `qc_name` is the cleaned primary capture;
when that is empty (`if not qc_name`), the fallback label pattern is
consulted. -/
def qc_name_of (s : List Char) : String :=
  if qc_primary_cleaned s = "" then qc_fallback_value s else qc_primary_cleaned s

/-- Lines 89-90 of app.py: the primary amount capture, or `""`. -/
def amount_primary_value (s : List Char) : String :=
  match searchA re_amount_primary s with
  | some m => String.mk (group1 s m)
  | none => ""

/-- Lines 91-93 of app.py: the fallback amount capture, or `""`. -/
def amount_fallback_value (s : List Char) : String :=
  match searchA re_amount_fallback s with
  | some m => String.mk (group1 s m)
  | none => ""

/-- Lines 89-93 of app.py: `amount` is the primary capture; when empty
(`if not amount`), the fallback pattern is consulted. -/
def amount_of (s : List Char) : String :=
  if amount_primary_value s = "" then amount_fallback_value s else amount_primary_value s

/-- `_extract_fields` (app.py lines 71-95): `(report_no, qc_name, amount)`. -/
def _extract_fields (text : String) : String × String × String :=
  (report_no_of text.toList, qc_name_of text.toList, amount_of text.toList)

/-- An uploaded file: its name and its raw content (the content type is
abstract; the external OCR / PDF engines consuming it are oracles). -/
structure UploadFile (β : Type) where
  name : String
  content : β

/-- One row of the result table (the dict appended at app.py lines
111-115, keys "Expense Report Number", "QC name", "Amount"). -/
structure Row where
  reportNumber : String
  qcName : String
  amount : String

/-- Build a row from `_extract_fields`' triple. -/
def rowOf (fields : String × String × String) : Row :=
  ⟨fields.1, fields.2.1, fields.2.2⟩

/-- `_read_text_from_bytes` (app.py lines 56-69).  The two external
engines are oracles: `pdfPages` stands for pdfplumber's per-page
`extract_text()` (an `Option` per page, `or ""` applied here), `ocr`
for `_ocr_image ∘ Image.open` on image bytes. -/
def _read_text_from_bytes (pdfPages : β → List (Option String)) (ocr : β → String)
    (fileBytes : β) (suffix : String) : String :=
  let sfx := suffix.toLower
  if sfx = ".pdf" then
    String.intercalate "\n" ((pdfPages fileBytes).map (fun p => p.getD ""))
  else if [".png", ".jpg", ".jpeg", ".bmp", ".tif", ".tiff"].contains sfx then
    ocr fileBytes
  else ""

/-- The per-upload suffix computation `"." + f.name.split(".")[-1]`
(app.py line 108). -/
def suffixOf (name : String) : String :=
  "." ++ (name.splitOn ".").getLastD ""

/-- The batch loop (app.py lines 104-116) with total text acquisition:
one appended row per upload, in upload order. -/
def processBatch (pdfPages : β → List (Option String)) (ocr : β → String)
    (uploads : List (UploadFile β)) : List Row :=
  uploads.map (fun f =>
    rowOf (_extract_fields (_read_text_from_bytes pdfPages ocr f.content (suffixOf f.name))))

/-- The batch loop as written (no try/except around the per-document
body): text acquisition that raises (`Except.error`) aborts the whole
loop, and no rows are produced. -/
def processBatchExc (readText : UploadFile β → Except ε String) :
    List (UploadFile β) → Except ε (List Row)
  | [] => Except.ok []
  | f :: fs =>
    match readText f with
    | Except.error e => Except.error e
    | Except.ok text =>
      match processBatchExc readText fs with
      | Except.error e => Except.error e
      | Except.ok rows => Except.ok (rowOf (_extract_fields text) :: rows)

/-! ### IEEE-754 double model for the resize arithmetic of `_ocr_image`

Lines 50-52 of app.py compute, in Python floats (binary64):
`ratio = 1200 / width; (int(width * ratio), int(height * ratio))`.
The model rounds exact rationals to 53 significant bits with
round-to-nearest, ties-to-even; the values in scope are positive and
far inside the normal range, so exponent limits never bind. -/

/-- Fuelled binary logarithm (structural, so it reduces in the kernel). -/
def log2fuel : Nat → Nat → Nat
  | 0, _ => 0
  | f + 1, n => if 2 ≤ n then log2fuel f (n / 2) + 1 else 0

/-- `Nat.log2` with enough fuel for every value in scope. -/
def nlog2 (n : Nat) : Nat := log2fuel 200 n

/-- `⌊log2 (num / den)⌋` for positive `num / den ≥ 2 ^ (-64)`. -/
def floorLog2 (num den : Nat) : Int :=
  (nlog2 ((num * 2 ^ 64) / den) : Int) - 64

/-- Round `a / b` to the nearest integer, ties to even. -/
def rnEven (a b : Nat) : Nat :=
  let q := a / b
  let r := a % b
  if 2 * r < b then q
  else if b < 2 * r then q + 1
  else if q % 2 = 0 then q else q + 1

/-- Round the positive rational `num / den` to the nearest binary64
value (53-bit significand, round-to-nearest, ties-to-even), returned
as a dyadic pair `(m, k)` of value `m / 2 ^ k`.  Faithful for values in
`[2 ^ (-64), 2 ^ 52]`, which covers every value the resize arithmetic
of app.py produces; the kept exponents are non-negative there. -/
def roundPosDyadic (num den : Nat) : Nat × Nat :=
  let e : Nat := (52 - floorLog2 num den).toNat
  (rnEven (num * 2 ^ e) den, e)

/-- The output pixel dimensions of `_ocr_image`'s resize step (app.py
lines 50-52): below width 1200 the image is resized to
`(int(w * ratio), int(h * ratio))` with `ratio = 1200 / w` computed in
binary64 and `int()` truncating (the values are positive, so toward
zero is `/`); otherwise it is left alone. -/
def _ocr_image_dims (w h : Nat) : Nat × Nat :=
  if w < 1200 then
    let r := roundPosDyadic 1200 w
    let wd := roundPosDyadic (w * r.1) (2 ^ r.2)
    let hd := roundPosDyadic (h * r.1) (2 ^ r.2)
    (wd.1 / 2 ^ wd.2, hd.1 / 2 ^ hd.2)
  else (w, h)

/-! ### The shape of amount captures

Both amount patterns capture exactly `[0-9,]+\.[0-9]{2}`; the following
predicates and lemmas establish that every successful amount capture is
one-or-more digits/commas, one dot, and exactly two digits. -/

/-- `([0-9,])* then "." then exactly two digits` — the tail of the
monetary token after its first character. -/
def amountTail : List Char → Bool
  | [] => false
  | c :: rest =>
    if c = '.' then
      (match rest with
       | [c1, c2] => c1.isDigit && c2.isDigit
       | _ => false)
    else isDigitComma c && amountTail rest

/-- The language of `[0-9,]+\.[0-9]{2}` as a decidable predicate. -/
def amountShape : List Char → Bool
  | [] => false
  | c :: rest => isDigitComma c && amountTail rest

/-- Group-1 state whose span slices to a monetary token. -/
def ShapeCaps (s : List Char) (c : Caps) : Prop :=
  ∃ a b, c = some (a, b) ∧ amountShape (slice s a b) = true

/-- Every success of an outcome carries a monetary-token group. -/
def GoodO (s : List Char) (o : Option MRes) : Prop :=
  ∀ j c, o = some (j, c) → ShapeCaps s c

/-- A pattern all of whose continuation calls carry a monetary-token
group (the amount patterns, whose capture closes the pattern). -/
def SetsShape (s : List Char) (r : Re) : Prop :=
  ∀ i caps k, (∀ j c, ShapeCaps s c → GoodO s (k j c)) → GoodO s (mat s r i caps k)

/-! ## Helper lemmas -/

theorem goodO_none (s : List Char) : GoodO s none := by
  intro j c h
  cases h

theorem goodO_some (s : List Char) (j : Nat) (c : Caps) (hc : ShapeCaps s c) :
    GoodO s (some (j, c)) := by
  intro j' c' he
  cases he
  exact hc

theorem goodO_orElse (s : List Char) (a : Option MRes) (f : Unit → Option MRes)
    (ha : GoodO s a) (hf : GoodO s (f ())) : GoodO s (a.orElse f) := by
  cases a with
  | none => simpa [Option.orElse] using hf
  | some x => simpa [Option.orElse] using ha

theorem goodO_tryDescAux (s : List Char) (f : Nat → Option MRes) (base : Nat) :
    ∀ d : Nat, (∀ t, t ≤ d → GoodO s (f (base + t))) → GoodO s (tryDescAux f base d) := by
  intro d
  induction d with
  | zero => intro h; simpa [tryDescAux] using h 0 (Nat.le_refl 0)
  | succ d ih =>
    intro h
    simp only [tryDescAux]
    exact goodO_orElse s _ _ (h (d + 1) (Nat.le_refl _))
      (ih (fun t ht => h t (Nat.le_trans ht (Nat.le_succ d))))

theorem goodO_tryAscAux (s : List Char) :
    ∀ (d : Nat) (f : Nat → Option MRes) (base : Nat),
      (∀ t, t ≤ d → GoodO s (f (base + t))) → GoodO s (tryAscAux f base d) := by
  intro d
  induction d with
  | zero => intro f base h; simpa [tryAscAux] using h 0 (Nat.le_refl 0)
  | succ d ih =>
    intro f base h
    simp only [tryAscAux]
    refine goodO_orElse s _ _ (by simpa using h 0 (Nat.zero_le _)) ?_
    refine ih f (base + 1) (fun t ht => ?_)
    have e : base + 1 + t = base + (t + 1) := by omega
    rw [e]
    exact h (t + 1) (by omega)

/-- If every continuation call is good, the whole match is good
(whatever the pattern: its own groups reach the continuation too). -/
theorem mat_goodO (s : List Char) :
    ∀ (r : Re) (i : Nat) (caps : Caps) (k : Nat → Caps → Option MRes),
      (∀ j c, GoodO s (k j c)) → GoodO s (mat s r i caps k) := by
  intro r
  induction r with
  | lit ci w =>
    intro i caps k hk
    simp only [mat]
    cases matchLit ci s i w with
    | some j => exact hk j caps
    | none => exact goodO_none s
  | cls p =>
    intro i caps k hk
    simp only [mat]
    cases s[i]? with
    | some c =>
      by_cases hp : p c = true
      · simpa [hp] using hk (i + 1) caps
      · simp only [Bool.not_eq_true] at hp
        simpa [hp] using goodO_none s
    | none => exact goodO_none s
  | cat r1 r2 ih1 ih2 =>
    intro i caps k hk
    exact ih1 i caps _ (fun j c => ih2 j c k hk)
  | alt r1 r2 ih1 ih2 =>
    intro i caps k hk
    exact goodO_orElse s _ _ (ih1 i caps k hk) (ih2 i caps k hk)
  | opt r ih =>
    intro i caps k hk
    exact goodO_orElse s _ _ (ih i caps k hk) (hk i caps)
  | plusG p =>
    intro i caps k hk
    simp only [mat]
    cases runLen p s i with
    | zero => exact goodO_none s
    | succ m => exact goodO_tryDescAux s _ _ m (fun t _ => hk _ caps)
  | starG p =>
    intro i caps k hk
    exact goodO_tryDescAux s _ _ _ (fun t _ => hk _ caps)
  | plusL p =>
    intro i caps k hk
    simp only [mat]
    cases runLen p s i with
    | zero => exact goodO_none s
    | succ m => exact goodO_tryAscAux s m _ _ (fun t _ => hk _ caps)
  | starL p =>
    intro i caps k hk
    exact goodO_tryAscAux s _ _ _ (fun t _ => hk _ caps)
  | grp r ih =>
    intro i caps k hk
    exact ih i caps _ (fun j c => hk j (some (i, j)))
  | wb =>
    intro i caps k hk
    simp only [mat]
    by_cases hb : isWB s i = true
    · simpa [hb] using hk i caps
    · simp only [Bool.not_eq_true] at hb
      simpa [hb] using goodO_none s

theorem matchLit_one (s : List Char) (ch : Char) (j j2 : Nat)
    (h : matchLit false s j [ch] = some j2) :
    s[j]? = some ch ∧ j2 = j + 1 := by
  simp only [matchLit] at h
  cases hget : s[j]? with
  | none => rw [hget] at h; cases h
  | some d =>
    rw [hget] at h
    have h' : (if chEq false d ch = true then some (j + 1) else none) = some j2 := h
    by_cases he : chEq false d ch = true
    · have hd : d = ch := by simpa [chEq] using he
      subst hd
      rw [if_pos he] at h'
      cases h'
      exact ⟨rfl, rfl⟩

    · rw [if_neg he] at h'
      cases h'

theorem digitComma_ne_dot (c : Char) (hc : isDigitComma c = true) : ¬(c = '.') := by
  intro he
  subst he
  exact absurd hc (by decide)

theorem amountTail_append (c1 c2 : Char) (h1 : c1.isDigit = true) (h2 : c2.isDigit = true) :
    ∀ A : List Char, (∀ c ∈ A, isDigitComma c = true) →
      amountTail (A ++ '.' :: c1 :: c2 :: []) = true := by
  intro A
  induction A with
  | nil =>
    intro _
    simp [amountTail, h1, h2]
  | cons a A ih =>
    intro hall
    have ha : isDigitComma a = true := hall a (List.mem_cons_self a A)
    have hih := ih (fun c hc => hall c (List.mem_cons_of_mem a hc))
    simp only [List.cons_append, amountTail, if_neg (digitComma_ne_dot a ha)]
    simp [ha, hih]

theorem amountShape_append (A : List Char) (hA : A ≠ [])
    (hall : ∀ c ∈ A, isDigitComma c = true)
    (c1 c2 : Char) (h1 : c1.isDigit = true) (h2 : c2.isDigit = true) :
    amountShape (A ++ '.' :: c1 :: c2 :: []) = true := by
  cases A with
  | nil => exact absurd rfl hA
  | cons a A =>
    have ha : isDigitComma a = true := hall a (List.mem_cons_self a A)
    have ht := amountTail_append c1 c2 h1 h2 A (fun c hc => hall c (List.mem_cons_of_mem a hc))
    simp only [List.cons_append, amountShape]
    simp [ha, ht]

theorem runLenAux_take_all (p : Char → Bool) :
    ∀ (l : List Char) (n : Nat), n ≤ runLenAux p l → ∀ c ∈ l.take n, p c = true := by
  intro l
  induction l with
  | nil =>
    intro n _ c hc
    simp at hc
  | cons a l ih =>
    intro n h c hc
    cases n with
    | zero => simp at hc
    | succ n =>
      by_cases hp : p a = true
      · simp only [runLenAux, if_pos hp] at h
        rw [List.take_succ_cons] at hc
        rcases List.mem_cons.mp hc with h1 | h2
        · subst h1; exact hp
        · exact ih n (Nat.le_of_succ_le_succ h) c h2
      · simp only [Bool.not_eq_true] at hp
        simp [runLenAux, hp] at h

theorem amountShape_slice (s : List Char) (i m : Nat) (c1 c2 : Char)
    (h1 : 1 ≤ m) (hm : m ≤ runLen isDigitComma s i)
    (hdot : s[i + m]? = some '.')
    (hc1 : s[i + m + 1]? = some c1) (hd1 : c1.isDigit = true)
    (hc2 : s[i + m + 2]? = some c2) (hd2 : c2.isDigit = true) :
    amountShape (slice s i (i + m + 3)) = true := by
  have hsl : slice s i (i + m + 3) = (s.drop i).take (m + 3) := by
    simp only [slice]
    congr 1
    omega
  set l := s.drop i with hl
  have g0 : l[m]? = some '.' := by rw [hl, List.getElem?_drop]; exact hdot
  have g1 : l[m + 1]? = some c1 := by
    rw [hl, List.getElem?_drop]
    have e : i + (m + 1) = i + m + 1 := by omega
    rw [e]; exact hc1
  have g2 : l[m + 2]? = some c2 := by
    rw [hl, List.getElem?_drop]
    have e : i + (m + 2) = i + m + 2 := by omega
    rw [e]; exact hc2
  have ht : l.take (m + 3) = l.take m ++ '.' :: c1 :: c2 :: [] := by
    have t1 : l.take (m + 1) = l.take m ++ ['.'] := by
      rw [List.take_succ, g0]; rfl
    have t2 : l.take (m + 2) = l.take (m + 1) ++ [c1] := by
      rw [List.take_succ, g1]; rfl
    have t3 : l.take (m + 3) = l.take (m + 2) ++ [c2] := by
      rw [List.take_succ, g2]; rfl
    rw [t3, t2, t1]
    simp
  have hmem : ∀ c ∈ l.take m, isDigitComma c = true :=
    runLenAux_take_all isDigitComma l m (by simpa [runLen, hl] using hm)
  have hne : l.take m ≠ [] := by
    have hlen : m < l.length := by
      by_contra hcon
      rw [List.getElem?_eq_none (by omega)] at g0
      cases g0
    intro hcon
    rcases List.take_eq_nil_iff.mp hcon with h0 | hnil
    · omega
    · rw [hnil] at hlen; simp at hlen
  rw [hsl, ht]
  exact amountShape_append (l.take m) hne hmem c1 c2 hd1 hd2

theorem mat_plusG_goodO (s : List Char) (p : Char → Bool) (i : Nat) (caps : Caps)
    (k : Nat → Caps → Option MRes)
    (hk : ∀ m, 1 ≤ m → m ≤ runLen p s i → GoodO s (k (i + m) caps)) :
    GoodO s (mat s (Re.plusG p) i caps k) := by
  simp only [mat]
  cases hrun : runLen p s i with
  | zero => exact goodO_none s
  | succ d =>
    refine goodO_tryDescAux s _ _ d (fun t ht => ?_)
    have e : i + 1 + t = i + (t + 1) := by omega
    rw [e]
    exact hk (t + 1) (by omega) (by omega)

theorem mat_cls_goodO (s : List Char) (p : Char → Bool) (i : Nat) (caps : Caps)
    (k : Nat → Caps → Option MRes)
    (hk : ∀ c, s[i]? = some c → p c = true → GoodO s (k (i + 1) caps)) :
    GoodO s (mat s (Re.cls p) i caps k) := by
  simp only [mat]
  cases hget : s[i]? with
  | none => exact goodO_none s
  | some c =>
    by_cases hp : p c = true
    · simpa [hp] using hk c hget hp
    · simp only [Bool.not_eq_true] at hp
      simpa [hp] using goodO_none s

theorem mat_lit_goodO (s : List Char) (ci : Bool) (w : List Char) (i : Nat) (caps : Caps)
    (k : Nat → Caps → Option MRes)
    (hk : ∀ j, matchLit ci s i w = some j → GoodO s (k j caps)) :
    GoodO s (mat s (Re.lit ci w) i caps k) := by
  simp only [mat]
  cases h : matchLit ci s i w with
  | some j => exact hk j h
  | none => exact goodO_none s

theorem mat_cat_eq (s : List Char) (r1 r2 : Re) (i : Nat) (caps : Caps)
    (k : Nat → Caps → Option MRes) :
    mat s (Re.cat r1 r2) i caps k = mat s r1 i caps (fun j cs => mat s r2 j cs k) := by
  simp only [mat]

theorem mat_grp_eq (s : List Char) (r : Re) (i : Nat) (caps : Caps)
    (k : Nat → Caps → Option MRes) :
    mat s (Re.grp r) i caps k = mat s r i caps (fun j _ => k j (some (i, j))) := by
  simp only [mat]

theorem mat_eps_eq (s : List Char) (i : Nat) (caps : Caps)
    (k : Nat → Caps → Option MRes) :
    mat s epsRe i caps k = k i caps := by
  simp only [epsRe, mat, matchLit]

/-- All continuation calls of the monetary token `amtTok` happen at the
end of a slice in the token language. -/
theorem mat_amtTok_goodO (s : List Char) (i : Nat) (caps : Caps)
    (k : Nat → Caps → Option MRes)
    (hk : ∀ j, amountShape (slice s i j) = true → GoodO s (k j caps)) :
    GoodO s (mat s amtTok i caps k) := by
  simp only [amtTok]
  rw [mat_cat_eq]
  refine mat_plusG_goodO s isDigitComma i caps _ (fun m h1 hm => ?_)
  rw [mat_cat_eq]
  refine mat_lit_goodO s false ['.'] (i + m) caps _ (fun j hj => ?_)
  obtain ⟨hdot, hj1⟩ := matchLit_one s '.' (i + m) j hj
  subst hj1
  rw [mat_cat_eq]
  refine mat_cls_goodO s Char.isDigit (i + m + 1) caps _ (fun c1 hg1 hd1 => ?_)
  refine mat_cls_goodO s Char.isDigit (i + m + 1 + 1) caps _ (fun c2 hg2 hd2 => ?_)
  have e2 : i + m + 1 + 1 = i + m + 2 := by omega
  have e3 : i + m + 1 + 1 + 1 = i + m + 3 := by omega
  rw [e3]
  refine hk (i + m + 3) ?_
  exact amountShape_slice s i m c1 c2 h1 hm hdot hg1 hd1 (by rw [← e2]; exact hg2) hd2

theorem setsShape_base (s : List Char) : SetsShape s (Re.cat (Re.grp amtTok) epsRe) := by
  intro i caps k hk
  rw [mat_cat_eq, mat_grp_eq]
  refine mat_amtTok_goodO s i caps _ (fun j hshape => ?_)
  rw [mat_eps_eq]
  exact hk j (some (i, j)) ⟨i, j, rfl, hshape⟩

theorem setsShape_cat (s : List Char) (r1 r2 : Re) (h2 : SetsShape s r2) :
    SetsShape s (Re.cat r1 r2) := by
  intro i caps k hk
  exact mat_goodO s r1 i caps _ (fun j c => h2 j c k hk)

theorem setsShape_amount_primary (s : List Char) : SetsShape s re_amount_primary := by
  have e : re_amount_primary
      = Re.cat (Re.lit true "for".toList)
          (Re.cat (Re.starG isPySpace)
            (Re.cat (Re.opt (Re.lit false ['￥']))
              (Re.cat (Re.starG isPySpace)
                (Re.cat (Re.grp amtTok) epsRe)))) := rfl
  rw [e]
  exact setsShape_cat s _ _ (setsShape_cat s _ _ (setsShape_cat s _ _
    (setsShape_cat s _ _ (setsShape_base s))))

theorem setsShape_amount_fallback (s : List Char) : SetsShape s re_amount_fallback := by
  have e : re_amount_fallback
      = Re.cat (Re.alt (Re.lit true "Reimbursement".toList) (Re.lit true "Total Amount".toList))
          (Re.cat (Re.plusG isColonSpace)
            (Re.cat (Re.opt (Re.alt (Re.lit true "CNY".toList) (Re.lit false ['￥'])))
              (Re.cat (Re.starG isPySpace)
                (Re.cat (Re.grp amtTok) epsRe)))) := rfl
  rw [e]
  exact setsShape_cat s _ _ (setsShape_cat s _ _ (setsShape_cat s _ _
    (setsShape_cat s _ _ (setsShape_base s))))

theorem searchA_shapeCaps (s : List Char) (r : Re) (hr : SetsShape s r) :
    ∀ st en caps, searchA r s = some (st, en, caps) → ShapeCaps s caps := by
  have hatt : ∀ i, GoodO s (attemptAt r s i) :=
    fun i => hr i none _ (fun j c hc => goodO_some s j c hc)
  suffices h : ∀ (cnt i st en caps), searchCnt r s i cnt = some (st, en, caps) →
      ShapeCaps s caps from h s.length 0
  intro cnt
  induction cnt with
  | zero =>
    intro i st en caps h
    cases hA : attemptAt r s i with
    | none =>
      simp only [searchCnt, hA] at h
      exact Option.noConfusion h
    | some jc =>
      obtain ⟨j, c⟩ := jc
      simp only [searchCnt, hA, Option.some.injEq, Prod.mk.injEq] at h
      obtain ⟨h1, h2, h3⟩ := h
      subst h3
      exact hatt i j c hA
  | succ cnt ih =>
    intro i st en caps h
    cases hA : attemptAt r s i with
    | none =>
      simp only [searchCnt, hA] at h
      exact ih (i + 1) st en caps h
    | some jc =>
      obtain ⟨j, c⟩ := jc
      simp only [searchCnt, hA, Option.some.injEq, Prod.mk.injEq] at h
      obtain ⟨h1, h2, h3⟩ := h
      subst h3
      exact hatt i j c hA

theorem amount_primary_value_shape (s : List Char) :
    amount_primary_value s = "" ∨ amountShape (amount_primary_value s).toList = true := by
  unfold amount_primary_value
  cases h : searchA re_amount_primary s with
  | none => exact Or.inl rfl
  | some m =>
    obtain ⟨st, en, caps⟩ := m
    obtain ⟨a, b, hc, hshape⟩ :=
      searchA_shapeCaps s _ (setsShape_amount_primary s) st en caps h
    subst hc
    exact Or.inr hshape

theorem amount_fallback_value_shape (s : List Char) :
    amount_fallback_value s = "" ∨ amountShape (amount_fallback_value s).toList = true := by
  unfold amount_fallback_value
  cases h : searchA re_amount_fallback s with
  | none => exact Or.inl rfl
  | some m =>
    obtain ⟨st, en, caps⟩ := m
    obtain ⟨a, b, hc, hshape⟩ :=
      searchA_shapeCaps s _ (setsShape_amount_fallback s) st en caps h
    subst hc
    exact Or.inr hshape

theorem amountTail_chars :
    ∀ w : List Char, amountTail w = true →
      ∀ c ∈ w, c.isDigit = true ∨ c = ',' ∨ c = '.' := by
  intro w
  induction w with
  | nil => intro h; simp [amountTail] at h
  | cons a rest ih =>
    intro h c hc
    by_cases ha : a = '.'
    · simp only [amountTail, if_pos ha] at h
      subst ha
      cases rest with
      | nil => simp at h
      | cons c1 rest1 =>
        cases rest1 with
        | nil => simp at h
        | cons c2 rest2 =>
          cases rest2 with
          | cons c3 rest3 => simp at h
          | nil =>
            have h' : (c1.isDigit && c2.isDigit) = true := h
            obtain ⟨hd1, hd2⟩ := Bool.and_eq_true_iff.mp h'
            rcases List.mem_cons.mp hc with e | hc
            · subst e; exact Or.inr (Or.inr rfl)
            rcases List.mem_cons.mp hc with e | hc
            · subst e; exact Or.inl hd1
            rcases List.mem_cons.mp hc with e | hc
            · subst e; exact Or.inl hd2
            · simp at hc
    · simp only [amountTail, if_neg ha] at h
      obtain ⟨h1, h2⟩ := Bool.and_eq_true_iff.mp h
      rcases List.mem_cons.mp hc with e | hc
      · subst e
        rcases (by simpa [isDigitComma] using h1 : c.isDigit = true ∨ c = ',') with hd | hcm
        · exact Or.inl hd
        · exact Or.inr (Or.inl hcm)
      · exact ih h2 c hc

theorem amountShape_chars (w : List Char) (h : amountShape w = true) :
    ∀ c ∈ w, c.isDigit = true ∨ c = ',' ∨ c = '.' := by
  cases w with
  | nil => simp [amountShape] at h
  | cons a rest =>
    simp only [amountShape] at h
    obtain ⟨h1, h2⟩ := Bool.and_eq_true_iff.mp h
    intro c hc
    rcases List.mem_cons.mp hc with e | hc
    · subst e
      rcases (by simpa [isDigitComma] using h1 : c.isDigit = true ∨ c = ',') with hd | hcm
      · exact Or.inl hd
      · exact Or.inr (Or.inl hcm)
    · exact amountTail_chars rest h2 c hc

theorem amountShape_ne_nil (w : List Char) (h : amountShape w = true) : w ≠ [] := by
  intro he
  subst he
  simp [amountShape] at h

theorem string_mk_ne_empty (w : List Char) (hw : w ≠ []) : String.mk w ≠ "" := by
  intro h
  exact hw (congrArg String.data h)

theorem amount_of_shape (s : List Char) :
    amount_of s = "" ∨ amountShape (amount_of s).toList = true := by
  unfold amount_of
  by_cases hp : amount_primary_value s = ""
  · rw [if_pos hp]
    exact amount_fallback_value_shape s
  · rw [if_neg hp]
    rcases amount_primary_value_shape s with h | h
    · exact absurd h hp
    · exact Or.inr h

/-! ## Claim theorems -/

/-- C1: for every ordered list of input documents, the batch loop
produces exactly one result record per document, in input order, and a
document whose extraction finds nothing still contributes a record with
three empty-string fields — no row is dropped. -/
theorem c1_batch_one_row_per_document :
    ∀ (β : Type) (pdfPages : β → List (Option String)) (ocr : β → String)
      (uploads : List (UploadFile β)),
      (processBatch pdfPages ocr uploads).length = uploads.length
      ∧ (∀ i : Nat, (processBatch pdfPages ocr uploads)[i]?
          = (uploads[i]?).map (fun f =>
              rowOf (_extract_fields
                (_read_text_from_bytes pdfPages ocr f.content (suffixOf f.name)))))
      ∧ rowOf (_extract_fields "") = ⟨"", "", ""⟩ := by
  intro β pdfPages ocr uploads
  refine ⟨List.length_map _ _, fun i => ?_, rfl⟩
  simp only [processBatch]
  exact List.getElem?_map _ _ _

/-- C2 (code bug): the batch loop has no per-document exception
handling.  With two uploads whose first raises during text acquisition,
the loop evaluates to the propagated error: the remaining document is
not processed and no record at all is produced, although the spec
requires the failure to be caught per-document. -/
theorem c2_batch_aborts_on_first_error :
    processBatchExc
      (fun f : UploadFile Unit =>
        if f.name = "bad.png" then (Except.error "TesseractError" : Except String String)
        else Except.ok "")
      [⟨"bad.png", ()⟩, ⟨"good.png", ()⟩] = Except.error "TesseractError" := rfl

/-- C3: on the empty string the field extractor returns all three
fields as the empty string. -/
theorem c3_empty_text_all_fields_empty :
    _extract_fields "" = ("", "", "") := rfl

/-- C4: on "Expense Report Number: SHPC-E253024" the primary
report-number rule matches and the extracted field is exactly
"SHPC-E253024". -/
theorem c4_report_number_primary :
    (_extract_fields "Expense Report Number: SHPC-E253024").1 = "SHPC-E253024"
    ∧ (searchA re_report_primary "Expense Report Number: SHPC-E253024".toList).isSome
        = true := by
  exact ⟨rfl, rfl⟩

/-- C5: on "Expense Report: SHPC-A1, George (乔治) Zhang, on 2024-01-01"
the reviewer-name field is exactly "George Zhang", and cleaning the
captured segment "George (乔治) Zhang" (full-width-parenthetical strip,
ASCII-letter tokens only, first two, joined by one space) yields it. -/
theorem c5_reviewer_name_cleaned :
    (_extract_fields "Expense Report: SHPC-A1, George (乔治) Zhang, on 2024-01-01").2.1
      = "George Zhang"
    ∧ _clean_name_english "George (乔治) Zhang" = "George Zhang" := by
  exact ⟨rfl, rfl⟩

/-- C7 counterexample: on the standalone lowercase token
"shpc-e253024" (word-boundary delimited, no "Expense Report" label) the
report-number field comes out empty, not the token — the fallback
search is case-sensitive, so the claim as stated is false. -/
theorem c7_counterexample_lowercase_token :
    ((_extract_fields "shpc-e253024").1 == "shpc-e253024") = false
    ∧ (_extract_fields "shpc-e253024").1 = "" := by
  exact ⟨rfl, rfl⟩

/-- C7 (amended): the labelled patterns carry `re.IGNORECASE`, but the
standalone-token fallback does not: a lowercase standalone token is not
extracted; an uppercase standalone token is; and a lowercase token
behind a lowercase label is extracted by the case-insensitive primary
pattern. -/
theorem c7_fallback_case_sensitive :
    (_extract_fields "shpc-e253024").1 = ""
    ∧ (_extract_fields "see SHPC-E253024 here").1 = "SHPC-E253024"
    ∧ (_extract_fields "expense report: shpc-x9").1 = "shpc-x9" := by
  exact ⟨rfl, rfl, rfl⟩

/-- C6: amount extraction searches the primary `for ￥` pattern first
and consults the Reimbursement/Total-Amount fallback only when the
primary fails; the matched monetary literal is the field value verbatim
(thousands separators preserved): "for ￥3,847.08" yields "3,847.08",
and "Total Amount: CNY 12,000.50" (no "for ¥…" phrase) yields
"12,000.50" from the fallback. -/
theorem c6_amount_primary_then_fallback :
    (_extract_fields "for ￥3,847.08").2.2 = "3,847.08"
    ∧ (_extract_fields "Total Amount: CNY 12,000.50").2.2 = "12,000.50"
    ∧ searchA re_amount_primary "Total Amount: CNY 12,000.50".toList = none
    ∧ (∀ (s : List Char) (m : Nat × Nat × Caps), searchA re_amount_primary s = some m →
        amount_of s = String.mk (group1 s m))
    ∧ (∀ s : List Char, searchA re_amount_primary s = none →
        amount_of s = amount_fallback_value s) := by
  refine ⟨rfl, rfl, rfl, ?_, ?_⟩
  · intro s m h
    obtain ⟨st, en, caps⟩ := m
    obtain ⟨a, b, hc, hshape⟩ :=
      searchA_shapeCaps s _ (setsShape_amount_primary s) st en caps h
    subst hc
    have hval : amount_primary_value s = String.mk (slice s a b) := by
      unfold amount_primary_value
      rw [h]
      rfl
    have hne : amount_primary_value s ≠ "" := by

      rw [hval]
      exact string_mk_ne_empty _ (amountShape_ne_nil _ hshape)
    unfold amount_of
    rw [if_neg hne, hval]
    rfl
  · intro s h
    have hval : amount_primary_value s = "" := by
      unfold amount_primary_value
      rw [h]
    unfold amount_of
    rw [if_pos hval]

/-- Witness for C6: on "for ￥3,847.08" the primary pattern matches at
span 0-13 with group 5-13, and the amount is that capture. -/
theorem c6_amount_witness :
    amount_of "for ￥3,847.08".toList
      = String.mk (group1 "for ￥3,847.08".toList (0, 13, some (5, 13))) :=
  c6_amount_primary_then_fallback.2.2.2.1 "for ￥3,847.08".toList (0, 13, some (5, 13)) rfl

/-- C8 counterexample: on a text where the primary title-line pattern
matches but its capture ("乔治") cleans to the empty string, the
fallback label rule IS consulted and produces "George Zhang" — so the
claim that the fallback is never consulted after a primary match (even
when cleaning empties it) is false. -/
theorem c8_counterexample_fallback_after_empty_clean :
    (searchA re_name_primary
        "Expense Report: SHPC-A1, 乔治, on 1\nQC Name: George Zhang".toList).isSome = true
    ∧ qc_primary_cleaned
        "Expense Report: SHPC-A1, 乔治, on 1\nQC Name: George Zhang".toList = ""
    ∧ qc_name_of
        "Expense Report: SHPC-A1, 乔治, on 1\nQC Name: George Zhang".toList = "George Zhang"
    ∧ (("George Zhang" : String) == "") = false := by
  exact ⟨rfl, rfl, rfl, rfl⟩

/-- C8 (amended): the reviewer-name fallback is consulted exactly when
the name value so far is empty — when the primary pattern misses, or
when it matches but cleaning its capture yields the empty string; when
the cleaned primary capture is nonempty, it is the field and the
fallback result is irrelevant. -/
theorem c8_fallback_on_empty_cleaned_name :
    ∀ s : List Char,
      (qc_primary_cleaned s ≠ "" → qc_name_of s = qc_primary_cleaned s)
      ∧ (qc_primary_cleaned s = "" → qc_name_of s = qc_fallback_value s) := by
  intro s
  constructor
  · intro h
    unfold qc_name_of
    rw [if_neg h]
  · intro h
    unfold qc_name_of
    rw [if_pos h]

/-- Witness for C8 (amended): a text whose cleaned primary capture is
the nonempty "Alice Wong", which is then the field. -/
theorem c8_fallback_on_empty_cleaned_name_witness :
    qc_primary_cleaned "Expense Report: SHPC-B2, Alice Wong, on 2024".toList ≠ ""
    ∧ qc_name_of "Expense Report: SHPC-B2, Alice Wong, on 2024".toList
        = qc_primary_cleaned "Expense Report: SHPC-B2, Alice Wong, on 2024".toList :=
  ⟨by decide, (c8_fallback_on_empty_cleaned_name _).1 (by decide)⟩

/-- C10: for every input text the amount field is either empty or a
string of digits and commas followed by one decimal point and exactly
two digits — never a currency symbol, whitespace, label word, or a
different number of decimal digits. -/
theorem c10_amount_shape_invariant :
    ∀ text : String,
      (_extract_fields text).2.2 = ""
      ∨ (amountShape ((_extract_fields text).2.2.toList) = true
         ∧ ∀ c ∈ (_extract_fields text).2.2.toList,
             c.isDigit = true ∨ c = ',' ∨ c = '.') := by
  intro text
  rcases amount_of_shape text.toList with h | h
  · exact Or.inl h
  · exact Or.inr ⟨h, amountShape_chars _ h⟩

/-- C9 (code bug): for input width 281 (< 1200) the resize arithmetic
of `_ocr_image` produces width 1199, not 1200: `1200 / 281` rounds in
binary64 to a value whose product with 281 rounds to just below 1200,
and `int()` truncates.  Width-1200-or-more inputs are left alone. -/
theorem c9_resize_width_shortfall :
    _ocr_image_dims 281 281 = (1199, 1199)
    ∧ 281 < 1200
    ∧ _ocr_image_dims 1200 5 = (1200, 5) := by
  refine ⟨by decide, by decide, rfl⟩

end ReinPics
